import Mathlib

/-!
Shallow embedding of the pack-data streaming iterator found in
`git-odb/src/pack/data/iter.rs`, together with models of the collaborators
that live outside the provided sources (the fixed preamble parse, the
per-entry header codec and the zlib inflate state), which are modelled from
the specification where needed.

The per-entry work done by the collaborators inside `Iter::next_inner`
(header decode plus streaming inflation) is abstracted as a supply of raw
decode attempts: each attempt carries exactly the data `next_inner` reads
from the collaborators, and the bookkeeping, assertions and state updates
of `next_inner` and `Iterator::next` are translated from the source.
-/

namespace PackIter

/-- Bytes are modelled as natural numbers (values below 256). -/
abbrev Byte := Nat

/-- Modelled from the spec: `pack::data::Kind` enumerates the recognized
pack format versions; only V2 is currently supported and all others are
rejected by the preamble parse. -/
inductive Kind where
  | V2
  | V3
  deriving DecidableEq

/-- Modelled from the spec: an object id is a fixed-width content hash,
held as its byte sequence. -/
abbrev Id := List Byte

/-- Modelled from the spec: `pack::data::parse::Error`, the format errors
of the fixed 12 byte preamble (bad magic, or a well-formed version value
other than the single accepted one). -/
inductive ParseError where
  | corrupt
  | unsupportedVersion (version : Nat)
  deriving DecidableEq

/-- Translation of the `Error` enum of `iter.rs`: an IO failure while
streaming an entry, or a failure to parse the pack header. -/
inductive Error where
  | io
  | packParse (e : ParseError)
  deriving DecidableEq

/-- Modelled from the spec: `pack::data::Header`, the decoded per-entry
object kind; the declared decompressed size travels separately, as in the
return value of `Header::from_read`. -/
inductive Header where
  | commit
  | tree
  | blob
  | tag
  | ofsDelta (baseDistance : Nat)
  | refDelta (baseId : Id)
  deriving DecidableEq

/-- Big-endian 32 bit value of four bytes. -/
def u32be (a b c d : Byte) : Nat :=
  a % 256 * 16777216 + b % 256 * 65536 + c % 256 * 256 + d % 256

/-- Modelled from the spec: `pack::data::parse::header` checks the 4 byte
magic, accepts only the single supported big-endian version value 2 as
`Kind.V2`, and returns the kind together with the declared entry count
taken big-endian from bytes 8 to 11. -/
def parse_header (data : List Byte) : Except ParseError (Kind × Nat) :=
  match data with
  | [m0, m1, m2, m3, v0, v1, v2, v3, n0, n1, n2, n3] =>
    if m0 = 80 ∧ m1 = 65 ∧ m2 = 67 ∧ m3 = 75 then
      if u32be v0 v1 v2 v3 = 2 then
        Except.ok (Kind.V2, u32be n0 n1 n2 n3)
      else
        Except.error (ParseError.unsupportedVersion (u32be v0 v1 v2 v3))
    else Except.error ParseError.corrupt
  | _ => Except.error ParseError.corrupt

/-- State of `Iter`: every field of the Rust struct except the underlying
reader, whose raw per-entry decode results are supplied separately. The
reusable decompressor is kept only as its presence. -/
structure IterState where
  decompressor : Option Unit
  offset : Nat
  hadError : Bool
  kind : Kind
  objectsLeft : Nat
  hash : Option Id
  verify : Bool
  deriving DecidableEq

/-- Translation of `struct Entry` of `iter.rs`; `header_size` is stored
truncated to 16 bits, as by the `as u16` cast in `next_inner`. -/
structure Entry where
  header : Header
  header_size : Nat
  pack_offset : Nat
  compressed : List Byte
  decompressed : List Byte
  deriving DecidableEq

/-- Outcome of constructing the iterator: like the Rust `Result`, with a
separate constructor for a panic (a failed assertion). -/
inductive Construct where
  | ok (st : IterState)
  | err (e : Error)
  | panic
  deriving DecidableEq

/-- Translation of `Iter::new_from_header`: read 12 bytes exactly (an
input shorter than that fails the `read_exact` with IO), parse the
preamble, then assert the kind is V2; on success the offset starts at 12,
the countdown at the declared count, with no decompressor, no hash and a
clear error flag, and the `verify` argument stored. -/
def new_from_header (data : List Byte) (verify : Bool) : Construct :=
  if data.length < 12 then Construct.err Error.io
  else
    match parse_header (data.take 12) with
    | Except.error e => Construct.err (Error.packParse e)
    | Except.ok (kind, numObjects) =>
      if kind = Kind.V2 then
        Construct.ok
          { decompressor := none
            offset := 12
            hadError := false
            kind := kind
            objectsLeft := numObjects
            hash := none
            verify := verify }
      else Construct.panic

/-- Translation of `Iter::checksum`, whose body is `self.hash.expect(..)`:
the result is the hash when present, and `none` stands for the panic of
the `expect` call. -/
def checksum (st : IterState) : Option Id :=
  st.hash

/-- Translation of `Iterator::size_hint`: lower and upper bound are both
the remaining object count. -/
def size_hint (st : IterState) : Nat × Option Nat :=
  (st.objectsLeft, some st.objectsLeft)

/-- One raw decode attempt by the collaborators inside `next_inner`:
either the triple returned by `Header::from_read` together with what the
inflation produced (output bytes, total-in counter of the decompressor and
the captured compressed bytes), or a failure of the header decode, or a
failure of the copy loop. -/
inductive StepResult where
  | ok (header : Header) (declaredSize : Nat) (headerSize : Nat)
      (decompressed : List Byte) (totalIn : Nat) (compressed : List Byte)
  | errHeader
  | errCopy
  deriving DecidableEq

/-- Outcome of one `next_inner` call: an entry, a recoverable error, or a
panic from one of the two assertions. -/
inductive InnerOutcome where
  | entry (e : Entry)
  | error (e : Error)
  | panic
  deriving DecidableEq

/-- Translation of `Iter::next_inner` acting on one raw decode attempt:
propagate errors; assert the copied byte count equals the declared size;
remember the pack offset, advance the offset by header size plus the
total-in counter and store the decompressor back; assert the captured
buffer holds exactly total-in bytes; emit the entry. -/
def next_inner (st : IterState) (step : StepResult) : InnerOutcome × IterState :=
  match step with
  | StepResult.errHeader => (InnerOutcome.error Error.io, st)
  | StepResult.errCopy => (InnerOutcome.error Error.io, { st with decompressor := none })
  | StepResult.ok header declaredSize headerSize decompressed totalIn compressed =>
    if decompressed.length ≠ declaredSize then
      (InnerOutcome.panic, { st with decompressor := none })
    else
      let packOffset := st.offset
      let st1 := { st with
        offset := st.offset + headerSize + totalIn
        decompressor := some () }
      if totalIn ≠ compressed.length then (InnerOutcome.panic, st1)
      else
        (InnerOutcome.entry
          { header := header
            header_size := headerSize % 65536
            pack_offset := packOffset
            compressed := compressed
            decompressed := decompressed }, st1)

/-- An iterator together with the pending raw decode attempts of its
underlying stream, one consumed per `next_inner` call. -/
structure Machine where
  st : IterState
  steps : List StepResult
  deriving DecidableEq

/-- Result of one `next` call as seen by the caller, with a separate
constructor for a panic. -/
inductive PullResult where
  | none
  | entry (e : Entry)
  | error (e : Error)
  | panic
  deriving DecidableEq

/-- Pop the next raw decode attempt; an exhausted supply behaves as the
underlying reader hitting the end of input, which fails the header decode
with an IO error. -/
def takeStep : List StepResult → StepResult × List StepResult
  | [] => (StepResult.errHeader, [])
  | s :: rest => (s, rest)

/-- Translation of `Iterator::next`: return no item when the sticky error
flag is set or no objects are left; otherwise decrement the countdown
first, then run `next_inner` and record in the flag whether it failed. -/
def next (m : Machine) : PullResult × Machine :=
  if m.st.hadError = true ∨ m.st.objectsLeft = 0 then (PullResult.none, m)
  else
    let inner := next_inner { m.st with objectsLeft := m.st.objectsLeft - 1 } (takeStep m.steps).1
    match inner.1 with
    | InnerOutcome.entry e =>
      (PullResult.entry e, ⟨{ inner.2 with hadError := false }, (takeStep m.steps).2⟩)
    | InnerOutcome.error e =>
      (PullResult.error e, ⟨{ inner.2 with hadError := true }, (takeStep m.steps).2⟩)
    | InnerOutcome.panic => (PullResult.panic, ⟨inner.2, (takeStep m.steps).2⟩)

/-- Run a number of `next` calls, collecting the results in order. -/
def runPulls : Nat → Machine → List PullResult × Machine
  | 0, m => ([], m)
  | Nat.succ n, m =>
    ((next m).1 :: (runPulls n (next m).2).1, (runPulls n (next m).2).2)

/-- Extract the entry list from a list of pull results; defined exactly
when every pull yielded an entry. -/
def asEntries : List PullResult → Option (List Entry)
  | [] => some []
  | PullResult.entry e :: rs => (asEntries rs).map (fun es => e :: es)
  | _ :: _ => none

/-- Offset contiguity chain: the first entry sits at `off` and each later
entry starts right after the header bytes and compressed payload of the
entry before it. -/
def offsetsContiguousB : List Entry → Nat → Bool
  | [], _ => true
  | e :: rest, off =>
    (e.pack_offset == off) &&
      offsetsContiguousB rest (e.pack_offset + e.header_size + e.compressed.length)

/-- A raw decode attempt whose header byte count fits the `u16` field of
`Entry`; the per-entry header codec consumes at most a few dozen bytes, so
every attempt produced by it satisfies this. -/
def StepResult.smallHeader : StepResult → Bool
  | StepResult.ok _ _ headerSize _ _ _ => decide (headerSize < 65536)
  | _ => true

/-- Capturing reader `PassThrough` over an in-memory buffered source: the
bytes the inner reader has not yet consumed, and the capture buffer that
consumed bytes are mirrored into. -/
structure PassThrough where
  remaining : List Byte
  write : List Byte
  deriving DecidableEq

/-- Model of `fill_buf` of the inner buffered source: it exposes some
prefix of the pending bytes, of a length `cap` chosen by the buffering; no
state changes. -/
def PassThrough.fill_buf (cap : Nat) (s : PassThrough) : List Byte :=
  s.remaining.take cap

/-- Translation of `PassThrough::consume`: call `fill_buf` on the inner
reader, mirror the first `amt` bytes of the exposed buffer into the
capture, then forward the consume to the inner reader. Slicing beyond the
exposed buffer is a panic of the index operation, modelled as `none`. -/
def PassThrough.consume (cap amt : Nat) (s : PassThrough) : Option PassThrough :=
  let buf := PassThrough.fill_buf cap s
  if amt ≤ buf.length then
    some ⟨s.remaining.drop amt, s.write ++ buf.take amt⟩
  else none

/-- One driver operation on the capturing reader: a fill that only peeks,
or a consume of `amt` bytes out of an exposed buffer of length `cap`. -/
inductive Op where
  | fill (cap : Nat)
  | consume (cap amt : Nat)
  deriving DecidableEq

/-- Run a sequence of operations; a fill alone changes nothing, a consume
threads the state, and a panic aborts the run. -/
def runOps : List Op → PassThrough → Option PassThrough
  | [], s => some s
  | Op.fill _ :: ops, s => runOps ops s
  | Op.consume cap amt :: ops, s => (PassThrough.consume cap amt s).bind (runOps ops)

/-- The bytes a sequence of operations marks consumed, in order; fills
contribute nothing. -/
def consumedOf : List Op → List Byte → List Byte
  | [], _ => []
  | Op.fill _ :: ops, rem => consumedOf ops rem
  | Op.consume cap amt :: ops, rem =>
    (rem.take cap).take amt ++ consumedOf ops (rem.drop amt)

/-- Behaviour of `PassThrough::consume` as a function of the result of the
inner `fill_buf` call it performs: an IO error hits the `expect` and
panics; a buffer shorter than `amt` panics in the slice; otherwise the
sliced bytes are appended to the capture. The return type has no error
channel at all: `none` is a panic. -/
def consumeWithFill (fillResult : Except Unit (List Byte)) (amt : Nat)
    (write : List Byte) : Option (List Byte) :=
  match fillResult with
  | Except.error _ => none
  | Except.ok buf =>
    if amt ≤ buf.length then some (write ++ buf.take amt) else none

theorem next_of_flagged (m : Machine) (h : m.st.hadError = true) :
    next m = (PullResult.none, m) := by
  simp [next, h]

theorem next_of_exhausted (m : Machine) (h : m.st.objectsLeft = 0) :
    next m = (PullResult.none, m) := by
  simp [next, h]

theorem runPulls_flagged (n : Nat) (m : Machine) (h : m.st.hadError = true) :
    runPulls n m = (List.replicate n PullResult.none, m) := by
  induction n with
  | zero => simp [runPulls]
  | succ n ih => simp [runPulls, next_of_flagged m h, ih, List.replicate_succ]

theorem next_error_flags (m m1 : Machine) (e : Error)
    (h : next m = (PullResult.error e, m1)) : m1.st.hadError = true := by
  unfold next at h
  simp only [] at h
  split at h
  · simp at h
  · split at h <;> simp at h
    obtain ⟨-, h2⟩ := h
    subst h2
    rfl

theorem next_not_streaming (m : Machine)
    (h : m.st.hadError = true ∨ m.st.objectsLeft = 0) :
    next m = (PullResult.none, m) := by
  unfold next
  rw [if_pos h]

theorem next_inner_fixed (st : IterState) (s : StepResult) :
    (next_inner st s).2.objectsLeft = st.objectsLeft ∧
    (next_inner st s).2.kind = st.kind ∧
    (next_inner st s).2.hash = st.hash ∧
    (next_inner st s).2.hadError = st.hadError ∧
    (next_inner st s).2.verify = st.verify := by
  cases s with
  | ok header dsz hsz dec tin comp =>
    by_cases h1 : dec.length = dsz
    · by_cases h2 : tin = comp.length <;> simp [next_inner, h1, h2]
    · simp [next_inner, h1]
  | errHeader => exact ⟨rfl, rfl, rfl, rfl, rfl⟩
  | errCopy => exact ⟨rfl, rfl, rfl, rfl, rfl⟩

theorem next_fixed (m : Machine) :
    (next m).2.st.kind = m.st.kind ∧ (next m).2.st.hash = m.st.hash ∧
    (next m).2.st.verify = m.st.verify := by
  unfold next
  simp only []
  split
  · exact ⟨rfl, rfl, rfl⟩
  · split <;> simp [next_inner_fixed]

theorem next_decrements (m : Machine)
    (hf : m.st.hadError = false) (hl : m.st.objectsLeft ≠ 0) :
    (next m).2.st.objectsLeft = m.st.objectsLeft - 1 := by
  unfold next
  simp only []
  rw [if_neg (by simp [hf, hl])]
  split <;> simp [next_inner_fixed]

theorem next_of_okStep (m : Machine) (header : Header)
    (declaredSize headerSize totalIn : Nat) (decompressed compressed : List Byte)
    (rest : List StepResult)
    (hf : m.st.hadError = false) (hl : m.st.objectsLeft ≠ 0)
    (hs : m.steps =
      StepResult.ok header declaredSize headerSize decompressed totalIn compressed :: rest)
    (h1 : decompressed.length = declaredSize) (h2 : totalIn = compressed.length) :
    next m = (PullResult.entry
        { header := header
          header_size := headerSize % 65536
          pack_offset := m.st.offset
          compressed := compressed
          decompressed := decompressed },
      ⟨{ m.st with
          objectsLeft := m.st.objectsLeft - 1
          offset := m.st.offset + headerSize + totalIn
          decompressor := some () }, rest⟩) := by
  simp [next, next_inner, takeStep, hf, hl, hs, h1, h2]

theorem next_of_errHeader (m : Machine) (rest : List StepResult)
    (hf : m.st.hadError = false) (hl : m.st.objectsLeft ≠ 0)
    (hs : m.steps = StepResult.errHeader :: rest) :
    next m = (PullResult.error Error.io,
      ⟨{ m.st with objectsLeft := m.st.objectsLeft - 1, hadError := true }, rest⟩) := by
  simp [next, next_inner, takeStep, hf, hl, hs]

theorem next_of_errCopy (m : Machine) (rest : List StepResult)
    (hf : m.st.hadError = false) (hl : m.st.objectsLeft ≠ 0)
    (hs : m.steps = StepResult.errCopy :: rest) :
    next m = (PullResult.error Error.io,
      ⟨{ m.st with
          objectsLeft := m.st.objectsLeft - 1
          decompressor := none
          hadError := true }, rest⟩) := by
  simp [next, next_inner, takeStep, hf, hl, hs]

theorem next_of_noSteps (m : Machine)
    (hf : m.st.hadError = false) (hl : m.st.objectsLeft ≠ 0) (hs : m.steps = []) :
    next m = (PullResult.error Error.io,
      ⟨{ m.st with objectsLeft := m.st.objectsLeft - 1, hadError := true }, []⟩) := by
  simp [next, next_inner, takeStep, hf, hl, hs]

theorem next_of_sizeMismatch (m : Machine) (header : Header)
    (declaredSize headerSize totalIn : Nat) (decompressed compressed : List Byte)
    (rest : List StepResult)
    (hf : m.st.hadError = false) (hl : m.st.objectsLeft ≠ 0)
    (hs : m.steps =
      StepResult.ok header declaredSize headerSize decompressed totalIn compressed :: rest)
    (h1 : decompressed.length ≠ declaredSize) :
    next m = (PullResult.panic,
      ⟨{ m.st with
          objectsLeft := m.st.objectsLeft - 1
          decompressor := none }, rest⟩) := by
  simp [next, next_inner, takeStep, hf, hl, hs, h1]

theorem next_of_captureMismatch (m : Machine) (header : Header)
    (declaredSize headerSize totalIn : Nat) (decompressed compressed : List Byte)
    (rest : List StepResult)
    (hf : m.st.hadError = false) (hl : m.st.objectsLeft ≠ 0)
    (hs : m.steps =
      StepResult.ok header declaredSize headerSize decompressed totalIn compressed :: rest)
    (h1 : decompressed.length = declaredSize) (h2 : totalIn ≠ compressed.length) :
    next m = (PullResult.panic,
      ⟨{ m.st with
          objectsLeft := m.st.objectsLeft - 1
          offset := m.st.offset + headerSize + totalIn
          decompressor := some () }, rest⟩) := by
  simp [next, next_inner, takeStep, hf, hl, hs, h1, h2]

/-- C2: once one pull returns an error, the sticky flag is set and every
subsequent pull on the decoder returns no more items: never another error
and never a valid entry. -/
theorem C2_sticky_failure (m m1 : Machine) (e : Error) (n : Nat)
    (h : next m = (PullResult.error e, m1)) :
    (runPulls n m1).1 = List.replicate n PullResult.none := by
  have hf := next_error_flags m m1 e h
  rw [runPulls_flagged n m1 hf]

/-- Witness for C2 at a concrete decoder whose first decode attempt fails:
the three pulls after the error all return no more items. -/
theorem C2_sticky_failure_witness :
    (runPulls 3 ⟨⟨none, 12, true, Kind.V2, 1, none, false⟩, []⟩).1 =
      List.replicate 3 PullResult.none :=
  C2_sticky_failure ⟨⟨none, 12, false, Kind.V2, 2, none, false⟩, [StepResult.errHeader]⟩
    ⟨⟨none, 12, true, Kind.V2, 1, none, false⟩, []⟩ Error.io 3 (by decide)

theorem asEntries_cons (r : PullResult) (rs : List PullResult) (es : List Entry)
    (h : asEntries (r :: rs) = some es) :
    ∃ e es1, r = PullResult.entry e ∧ asEntries rs = some es1 ∧ es = e :: es1 := by
  cases r with
  | none => simp [asEntries] at h
  | entry e =>
    cases hrs : asEntries rs with
    | none => rw [asEntries, hrs] at h; simp at h
    | some es1 =>
      rw [asEntries, hrs] at h
      simp at h
      exact ⟨e, es1, rfl, rfl, h.symm⟩
  | error e => simp [asEntries] at h
  | panic => simp [asEntries] at h

theorem next_entry_streaming (m : Machine) (e : Entry)
    (h : (next m).1 = PullResult.entry e) :
    m.st.hadError = false ∧ m.st.objectsLeft ≠ 0 := by
  by_cases hf : m.st.hadError = true
  · rw [next_not_streaming m (Or.inl hf)] at h
    simp at h
  · by_cases hl : m.st.objectsLeft = 0
    · rw [next_not_streaming m (Or.inr hl)] at h
      simp at h
    · exact ⟨Bool.not_eq_true _ ▸ hf, hl⟩

theorem runPulls_entries_count (n : Nat) (m : Machine) (es : List Entry)
    (he : asEntries (runPulls n m).1 = some es) :
    (runPulls n m).2.st.objectsLeft = m.st.objectsLeft - n := by
  induction n generalizing m es with
  | zero => simp [runPulls]
  | succ n ih =>
    rw [runPulls] at he ⊢
    dsimp only at he ⊢
    obtain ⟨e, es1, hr, hrs, -⟩ := asEntries_cons _ _ _ he
    obtain ⟨hf, hl⟩ := next_entry_streaming m e hr
    have hdec := next_decrements m hf hl
    have := ih (next m).2 es1 hrs
    omega

/-- C4: for every entry yielded by a pull, the decompressed buffer length
equals the declared decompressed size from the entry header exactly and
the compressed buffer length equals the total-in count reported by the
decompressor exactly; any mismatch is a fatal assertion failure (a panic),
never a recoverable error result and never a silently yielded entry. -/
theorem C4_size_fidelity (m : Machine) (header : Header)
    (declaredSize headerSize totalIn : Nat) (decompressed compressed : List Byte)
    (rest : List StepResult)
    (hf : m.st.hadError = false) (hl : m.st.objectsLeft ≠ 0)
    (hs : m.steps =
      StepResult.ok header declaredSize headerSize decompressed totalIn compressed :: rest) :
    (∀ e, (next m).1 = PullResult.entry e →
      e.decompressed.length = declaredSize ∧ e.compressed.length = totalIn) ∧
    (decompressed.length ≠ declaredSize ∨ totalIn ≠ compressed.length →
      (next m).1 = PullResult.panic) := by
  constructor
  · intro e he
    by_cases h1 : decompressed.length = declaredSize
    · by_cases h2 : totalIn = compressed.length
      · rw [next_of_okStep m header declaredSize headerSize totalIn decompressed compressed
          rest hf hl hs h1 h2] at he
        injection he with he
        subst he
        exact ⟨h1, h2.symm⟩
      · rw [next_of_captureMismatch m header declaredSize headerSize totalIn decompressed
          compressed rest hf hl hs h1 h2] at he
        simp at he
    · rw [next_of_sizeMismatch m header declaredSize headerSize totalIn decompressed
        compressed rest hf hl hs h1] at he
      simp at he
  · intro h12
    by_cases h1 : decompressed.length = declaredSize
    · rcases h12 with h1x | h2
      · exact absurd h1 h1x
      · rw [next_of_captureMismatch m header declaredSize headerSize totalIn decompressed
          compressed rest hf hl hs h1 h2]
    · rw [next_of_sizeMismatch m header declaredSize headerSize totalIn decompressed
        compressed rest hf hl hs h1]

/-- Witness for C4 at a concrete matched decode attempt: the yielded entry
carries the declared three decompressed bytes and the four compressed
bytes the decompressor reported. -/
theorem C4_size_fidelity_witness :
    (next (⟨⟨none, 12, false, Kind.V2, 1, none, false⟩,
        [StepResult.ok Header.blob 3 2 [5, 6, 7] 4 [1, 2, 3, 4]]⟩ : Machine)).1 =
      PullResult.entry ⟨Header.blob, 2, 12, [1, 2, 3, 4], [5, 6, 7]⟩ ∧
    ([5, 6, 7] : List Byte).length = 3 ∧ ([1, 2, 3, 4] : List Byte).length = 4 := by
  refine ⟨by decide, ?_⟩
  exact (C4_size_fidelity ⟨⟨none, 12, false, Kind.V2, 1, none, false⟩,
      [StepResult.ok Header.blob 3 2 [5, 6, 7] 4 [1, 2, 3, 4]]⟩ Header.blob 3 2 4
      [5, 6, 7] [1, 2, 3, 4] [] rfl (by decide) rfl).1
    ⟨Header.blob, 2, 12, [1, 2, 3, 4], [5, 6, 7]⟩ (by decide)

/-- C6: a pull in the streaming state decrements the remaining count
before the decode attempt, so even an erroring pull consumes exactly one
unit of the declared budget, and after a run of pulls that all yielded
entries the reported size hint equals the declared count minus the number
of pulls attempted. -/
theorem C6_attempt_budget (m : Machine) (k n : Nat)
    (hf : m.st.hadError = false) (hk : m.st.objectsLeft = k) (hk0 : k ≠ 0) :
    ((next m).2.st.objectsLeft = k - 1 ∧
      size_hint (next m).2.st = (k - 1, some (k - 1))) ∧
    (∀ es, asEntries (runPulls n m).1 = some es →
      size_hint (runPulls n m).2.st = (k - n, some (k - n))) := by
  constructor
  · have := next_decrements m hf (hk ▸ hk0)
    rw [hk] at this
    exact ⟨this, by rw [size_hint, this]⟩
  · intro es he
    have := runPulls_entries_count n m es he
    rw [hk] at this
    rw [size_hint, this]

/-- Witness for C6 at a concrete decoder declaring two entries whose first
decode attempt fails: the erroring pull still consumes one unit. -/
theorem C6_attempt_budget_witness :
    ((next (⟨⟨none, 12, false, Kind.V2, 2, none, false⟩,
        [StepResult.errCopy]⟩ : Machine)).2.st.objectsLeft = 1 ∧
      size_hint (next (⟨⟨none, 12, false, Kind.V2, 2, none, false⟩,
        [StepResult.errCopy]⟩ : Machine)).2.st = (1, some 1)) ∧
    (∀ es, asEntries (runPulls 0 (⟨⟨none, 12, false, Kind.V2, 2, none, false⟩,
        [StepResult.errCopy]⟩ : Machine)).1 = some es →
      size_hint (runPulls 0 (⟨⟨none, 12, false, Kind.V2, 2, none, false⟩,
        [StepResult.errCopy]⟩ : Machine)).2.st = (2 - 0, some (2 - 0))) :=
  C6_attempt_budget ⟨⟨none, 12, false, Kind.V2, 2, none, false⟩,
    [StepResult.errCopy]⟩ 2 0 rfl rfl (by decide)

theorem construct_ok_inv (data : List Byte) (verify : Bool) (st : IterState)
    (h : new_from_header data verify = Construct.ok st) :
    st.decompressor = none ∧ st.offset = 12 ∧ st.hadError = false ∧
    st.kind = Kind.V2 ∧ st.hash = none ∧ st.verify = verify := by
  unfold new_from_header at h
  split at h
  · simp at h
  · split at h
    · simp at h
    · split at h
      · rename_i hkind
        injection h with h
        subst h
        exact ⟨rfl, rfl, rfl, hkind, rfl, rfl⟩
      · simp at h

theorem runPulls_kind (n : Nat) (m : Machine) :
    (runPulls n m).2.st.kind = m.st.kind := by
  induction n generalizing m with
  | zero => rfl
  | succ n ih => rw [runPulls]; exact (ih (next m).2).trans (next_fixed m).1

/-- C10: every successfully constructed decoder carries kind V2, and the
kind accessor still returns V2 after any number of pulls, for the whole
lifetime of the decoder. -/
theorem C10_kind_stable (data : List Byte) (verify : Bool) (st : IterState)
    (h : new_from_header data verify = Construct.ok st) (n : Nat)
    (steps : List StepResult) :
    st.kind = Kind.V2 ∧ (runPulls n ⟨st, steps⟩).2.st.kind = Kind.V2 := by
  have hk := (construct_ok_inv data verify st h).2.2.2.1
  exact ⟨hk, (runPulls_kind n ⟨st, steps⟩).trans hk⟩

/-- Witness for C10 at a concrete well-formed preamble declaring five
entries, after two pulls over an erroring stream. -/
theorem C10_kind_stable_witness :
    (⟨none, 12, false, Kind.V2, 5, none, false⟩ : IterState).kind = Kind.V2 ∧
    (runPulls 2 ⟨⟨none, 12, false, Kind.V2, 5, none, false⟩,
      [StepResult.errCopy]⟩).2.st.kind = Kind.V2 :=
  C10_kind_stable [80, 65, 67, 75, 0, 0, 0, 2, 0, 0, 0, 5] false
    ⟨none, 12, false, Kind.V2, 5, none, false⟩ (by decide) 2 [StepResult.errCopy]

theorem next_entry_inv (m : Machine) (e : Entry)
    (h : (next m).1 = PullResult.entry e) :
    ∃ header dsz hsz dec tin comp rest,
      m.steps = StepResult.ok header dsz hsz dec tin comp :: rest ∧
      dec.length = dsz ∧ tin = comp.length ∧
      e = ⟨header, hsz % 65536, m.st.offset, comp, dec⟩ ∧
      (next m).2 = ⟨{ m.st with
          objectsLeft := m.st.objectsLeft - 1
          offset := m.st.offset + hsz + tin
          decompressor := some () }, rest⟩ := by
  obtain ⟨hf, hl⟩ := next_entry_streaming m e h
  cases hsteps : m.steps with
  | nil =>
    rw [next_of_noSteps m hf hl hsteps] at h
    simp at h
  | cons s rest =>
    cases s with
    | errHeader => rw [next_of_errHeader m rest hf hl hsteps] at h; simp at h
    | errCopy => rw [next_of_errCopy m rest hf hl hsteps] at h; simp at h
    | ok header dsz hsz dec tin comp =>
      by_cases h1 : dec.length = dsz
      · by_cases h2 : tin = comp.length
        · have hok := next_of_okStep m header dsz hsz tin dec comp rest hf hl hsteps h1 h2
          rw [hok] at h
          injection h with h
          exact ⟨header, dsz, hsz, dec, tin, comp, rest, rfl, h1, h2, h.symm, by rw [hok]⟩
        · rw [next_of_captureMismatch m header dsz hsz tin dec comp rest hf hl hsteps h1 h2] at h
          simp at h
      · rw [next_of_sizeMismatch m header dsz hsz tin dec comp rest hf hl hsteps h1] at h
        simp at h

theorem runPulls_entries_contiguous (n : Nat) (m : Machine) (es : List Entry)
    (hw : ∀ s ∈ m.steps, StepResult.smallHeader s = true)
    (he : asEntries (runPulls n m).1 = some es) :
    offsetsContiguousB es m.st.offset = true := by
  induction n generalizing m es with
  | zero =>
    rw [runPulls] at he
    injection he with he
    subst he
    rfl
  | succ n ih =>
    rw [runPulls] at he
    dsimp only at he
    obtain ⟨e, es1, hr, hrs, hes⟩ := asEntries_cons _ _ _ he
    obtain ⟨header, dsz, hsz, dec, tin, comp, rest, hsteps, h1, h2, hee, hm1⟩ :=
      next_entry_inv m e hr
    subst hes
    have hsmall : hsz < 65536 := by
      have := hw _ (hsteps ▸ List.mem_cons_self _ _)
      simpa [StepResult.smallHeader] using this
    have hmod : hsz % 65536 = hsz := Nat.mod_eq_of_lt hsmall
    have hw1 : ∀ s ∈ (next m).2.steps, StepResult.smallHeader s = true := by
      intro s hsmem
      rw [hm1] at hsmem
      exact hw s (hsteps ▸ List.mem_cons_of_mem _ hsmem)
    have hih := ih (next m).2 es1 hw1 hrs
    have hoff : (next m).2.st.offset = m.st.offset + hsz + tin := by rw [hm1]
    rw [hoff, h2] at hih
    rw [hee, offsetsContiguousB]
    simp only [hmod]
    simp [hih]

/-- C3: for every successfully decoded stream, the first yielded entry
sits at pack offset 12 exactly, and every later entry sits at the pack
offset of the entry before it plus that entry header size plus the length
of that entry compressed buffer. -/
theorem C3_offset_contiguity (data : List Byte) (verify : Bool) (st : IterState)
    (steps : List StepResult) (n : Nat) (es : List Entry)
    (hctor : new_from_header data verify = Construct.ok st)
    (hw : ∀ s ∈ steps, StepResult.smallHeader s = true)
    (he : asEntries (runPulls n ⟨st, steps⟩).1 = some es) :
    offsetsContiguousB es 12 = true := by
  have h12 := (construct_ok_inv data verify st hctor).2.1
  have hchain := runPulls_entries_contiguous n ⟨st, steps⟩ es hw he
  dsimp only at hchain
  rwa [h12] at hchain

/-- Witness for C3 on a synthetic two-entry stream: the first entry sits
at offset 12 and the second at 12 plus 2 header bytes plus 4 compressed
bytes, that is 18. -/
theorem C3_offset_contiguity_witness :
    offsetsContiguousB [⟨Header.blob, 2, 12, [1, 2, 3, 4], [5, 6, 7]⟩,
      ⟨Header.tree, 3, 18, [7, 7], [9]⟩] 12 = true :=
  C3_offset_contiguity [80, 65, 67, 75, 0, 0, 0, 2, 0, 0, 0, 2] false
    ⟨none, 12, false, Kind.V2, 2, none, false⟩
    [StepResult.ok Header.blob 3 2 [5, 6, 7] 4 [1, 2, 3, 4],
     StepResult.ok Header.tree 1 3 [9] 2 [7, 7]] 2 _ (by decide) (by decide) (by decide)

/-- C1, evaluated at the failing input: a well-formed pack declaring one
entry whose decode succeeds is exhausted after the single pull (the size
hint reaches zero), yet `checksum` still evaluates to the panic of the
`expect` call, because no code path ever assigns the `hash` field; before
exhaustion the call fails fast the same way. The checksum never becomes
readable, contradicting the claim and the doc comment of `checksum`. -/
theorem C1_checksum_never_readable :
    (new_from_header [80, 65, 67, 75, 0, 0, 0, 2, 0, 0, 0, 1] false =
      Construct.ok ⟨none, 12, false, Kind.V2, 1, none, false⟩) ∧
    checksum ⟨none, 12, false, Kind.V2, 1, none, false⟩ = none ∧
    (runPulls 1 ⟨⟨none, 12, false, Kind.V2, 1, none, false⟩,
        [StepResult.ok Header.blob 3 2 [5, 6, 7] 4 [1, 2, 3, 4]]⟩).1 =
      [PullResult.entry ⟨Header.blob, 2, 12, [1, 2, 3, 4], [5, 6, 7]⟩] ∧
    size_hint (runPulls 1 ⟨⟨none, 12, false, Kind.V2, 1, none, false⟩,
        [StepResult.ok Header.blob 3 2 [5, 6, 7] 4 [1, 2, 3, 4]]⟩).2.st = (0, some 0) ∧
    checksum (runPulls 1 ⟨⟨none, 12, false, Kind.V2, 1, none, false⟩,
        [StepResult.ok Header.blob 3 2 [5, 6, 7] 4 [1, 2, 3, 4]]⟩).2.st = none := by
  decide

/-- C5: a 12 byte preamble with intact magic and any well-formed version
value other than 2 makes construction fail with the format error carrying
that version: an error result, not a panic and not a silently accepted
decoder. -/
theorem C5_unsupported_version (m0 m1 m2 m3 v0 v1 v2 v3 n0 n1 n2 n3 : Byte) (verify : Bool)
    (hm : m0 = 80 ∧ m1 = 65 ∧ m2 = 67 ∧ m3 = 75)
    (hv : u32be v0 v1 v2 v3 ≠ 2) :
    new_from_header [m0, m1, m2, m3, v0, v1, v2, v3, n0, n1, n2, n3] verify =
      Construct.err (Error.packParse (ParseError.unsupportedVersion (u32be v0 v1 v2 v3))) := by
  obtain ⟨h0, h1, h2, h3⟩ := hm
  subst h0
  subst h1
  subst h2
  subst h3
  unfold new_from_header
  rw [if_neg (by simp)]
  simp [parse_header, hv]

/-- Witness for C5 at a preamble declaring version 3. -/
theorem C5_unsupported_version_witness :
    new_from_header [80, 65, 67, 75, 0, 0, 0, 3, 0, 0, 0, 0] false =
      Construct.err (Error.packParse (ParseError.unsupportedVersion (u32be 0 0 0 3))) :=
  C5_unsupported_version 80 65 67 75 0 0 0 3 0 0 0 0 false
    ⟨rfl, rfl, rfl, rfl⟩ (by decide)

/-- C7: for every sequence of fill and consume operations that completes
without a panic, the capture buffer equals its initial contents followed
by exactly the bytes marked consumed, in order, and a fill without a
consume contributes nothing to the run. -/
theorem C7_capture_fidelity (ops : List Op) (rem w : List Byte) (s1 : PassThrough)
    (h : runOps ops ⟨rem, w⟩ = some s1) :
    s1.write = w ++ consumedOf ops rem ∧
    ∀ cap, runOps (Op.fill cap :: ops) ⟨rem, w⟩ = runOps ops ⟨rem, w⟩ := by
  refine ⟨?_, fun cap => rfl⟩
  induction ops generalizing rem w s1 with
  | nil =>
    rw [runOps] at h
    injection h with h
    subst h
    simp [consumedOf]
  | cons op ops ih =>
    cases op with
    | fill cap =>
      rw [runOps] at h
      rw [consumedOf]
      exact ih rem w s1 h
    | consume cap amt =>
      rw [runOps] at h
      rw [consumedOf]
      by_cases hle : amt ≤ (rem.take cap).length
      · rw [PassThrough.consume] at h
        dsimp only [PassThrough.fill_buf] at h
        rw [if_pos hle] at h
        rw [Option.some_bind] at h
        have hw1 := ih (rem.drop amt) (w ++ (rem.take cap).take amt) s1 h
        rw [hw1, List.append_assoc]
      · rw [PassThrough.consume] at h
        dsimp only [PassThrough.fill_buf] at h
        rw [if_neg hle] at h
        rw [Option.none_bind] at h
        simp at h

/-- Witness for C7 on a concrete interleaving of two peeks and two
consumes over the six byte source 3,4,5,6: the capture ends as 3,4,5. -/
theorem C7_capture_fidelity_witness :
    ((⟨[6], [3, 4, 5]⟩ : PassThrough).write =
      [] ++ consumedOf [Op.fill 4, Op.consume 3 2, Op.fill 1, Op.consume 2 1] [3, 4, 5, 6]) ∧
    ∀ cap, runOps (Op.fill cap :: [Op.fill 4, Op.consume 3 2, Op.fill 1, Op.consume 2 1])
        ⟨[3, 4, 5, 6], []⟩ =
      runOps [Op.fill 4, Op.consume 3 2, Op.fill 1, Op.consume 2 1] ⟨[3, 4, 5, 6], []⟩ :=
  C7_capture_fidelity [Op.fill 4, Op.consume 3 2, Op.fill 1, Op.consume 2 1] [3, 4, 5, 6] []
    ⟨[6], [3, 4, 5]⟩ (by decide)

/-- C9: consume of the capturing reader, seen as a function of the result
of the inner fill-buffer call it performs, has no error channel: an IO
error of the inner fill is a panic, a buffer shorter than the consumed
amount is a panic, and the call completes exactly when a successful fill
of at least that length immediately preceded it. -/
theorem C9_consume_totality (fillResult : Except Unit (List Byte)) (amt : Nat)
    (w : List Byte) :
    consumeWithFill (Except.error ()) amt w = none ∧
    (∀ buf, fillResult = Except.ok buf → buf.length < amt →
      consumeWithFill fillResult amt w = none) ∧
    (∀ buf, fillResult = Except.ok buf → amt ≤ buf.length →
      consumeWithFill fillResult amt w = some (w ++ buf.take amt)) := by
  refine ⟨rfl, ?_, ?_⟩
  · intro buf hb hlt
    subst hb
    rw [consumeWithFill, if_neg (by omega)]
  · intro buf hb hle
    subst hb
    rw [consumeWithFill, if_pos hle]

/-- Witness for C9: an erroring fill panics, a two byte consume out of a
one byte buffer panics, and a two byte consume out of a three byte buffer
appends those two bytes to the capture. -/
theorem C9_consume_totality_witness :
    consumeWithFill (Except.error ()) 2 [] = none ∧
    consumeWithFill (Except.ok [9]) 2 [] = none ∧
    consumeWithFill (Except.ok [9, 8, 7]) 2 [] = some ([] ++ List.take 2 [9, 8, 7]) :=
  ⟨(C9_consume_totality (Except.error ()) 2 []).1,
   (C9_consume_totality (Except.ok [9]) 2 []).2.1 [9] rfl (by decide),
   (C9_consume_totality (Except.ok [9, 8, 7]) 2 []).2.2 [9, 8, 7] rfl (by decide)⟩

theorem next_verify_irrel (st : IterState) (steps : List StepResult) (b : Bool) :
    (next ⟨{ st with verify := b }, steps⟩).1 = (next ⟨st, steps⟩).1 ∧
    (next ⟨{ st with verify := b }, steps⟩).2 =
      ⟨{ (next ⟨st, steps⟩).2.st with verify := b }, (next ⟨st, steps⟩).2.steps⟩ := by
  by_cases hf : st.hadError = true
  · rw [next_not_streaming ⟨st, steps⟩ (Or.inl hf),
      next_not_streaming ⟨{ st with verify := b }, steps⟩ (Or.inl hf)]
    exact ⟨rfl, rfl⟩
  · replace hf : st.hadError = false := by simpa using hf
    by_cases hl : st.objectsLeft = 0
    · rw [next_not_streaming ⟨st, steps⟩ (Or.inr hl),
        next_not_streaming ⟨{ st with verify := b }, steps⟩ (Or.inr hl)]
      exact ⟨rfl, rfl⟩
    · cases steps with
      | nil =>
        rw [next_of_noSteps ⟨st, []⟩ hf hl rfl,
          next_of_noSteps ⟨{ st with verify := b }, []⟩ hf hl rfl]
        exact ⟨rfl, rfl⟩
      | cons s rest =>
        cases s with
        | errHeader =>
          rw [next_of_errHeader ⟨st, StepResult.errHeader :: rest⟩ rest hf hl rfl,
            next_of_errHeader ⟨{ st with verify := b }, StepResult.errHeader :: rest⟩
              rest hf hl rfl]
          exact ⟨rfl, rfl⟩
        | errCopy =>
          rw [next_of_errCopy ⟨st, StepResult.errCopy :: rest⟩ rest hf hl rfl,
            next_of_errCopy ⟨{ st with verify := b }, StepResult.errCopy :: rest⟩
              rest hf hl rfl]
          exact ⟨rfl, rfl⟩
        | ok header dsz hsz dec tin comp =>
          by_cases h1 : dec.length = dsz
          · by_cases h2 : tin = comp.length
            · rw [next_of_okStep ⟨st, StepResult.ok header dsz hsz dec tin comp :: rest⟩
                header dsz hsz tin dec comp rest hf hl rfl h1 h2,
                next_of_okStep ⟨{ st with verify := b },
                  StepResult.ok header dsz hsz dec tin comp :: rest⟩
                header dsz hsz tin dec comp rest hf hl rfl h1 h2]
              exact ⟨rfl, rfl⟩
            · rw [next_of_captureMismatch ⟨st,
                  StepResult.ok header dsz hsz dec tin comp :: rest⟩
                header dsz hsz tin dec comp rest hf hl rfl h1 h2,
                next_of_captureMismatch ⟨{ st with verify := b },
                  StepResult.ok header dsz hsz dec tin comp :: rest⟩
                header dsz hsz tin dec comp rest hf hl rfl h1 h2]
              exact ⟨rfl, rfl⟩
          · rw [next_of_sizeMismatch ⟨st, StepResult.ok header dsz hsz dec tin comp :: rest⟩
                header dsz hsz tin dec comp rest hf hl rfl h1,
              next_of_sizeMismatch ⟨{ st with verify := b },
                  StepResult.ok header dsz hsz dec tin comp :: rest⟩
                header dsz hsz tin dec comp rest hf hl rfl h1]
            exact ⟨rfl, rfl⟩

theorem runPulls_verify_irrel (n : Nat) (st : IterState) (steps : List StepResult)
    (b : Bool) :
    (runPulls n ⟨{ st with verify := b }, steps⟩).1 = (runPulls n ⟨st, steps⟩).1 := by
  induction n generalizing st steps with
  | zero => rfl
  | succ n ih =>
    rw [runPulls, runPulls]
    obtain ⟨hfst, hsnd⟩ := next_verify_irrel st steps b
    rw [hfst, hsnd]
    dsimp only
    rw [ih ((next ⟨st, steps⟩).2.st) ((next ⟨st, steps⟩).2.steps)]

theorem construct_ok_verify (data : List Byte) (b1 b2 : Bool) (st : IterState)
    (h : new_from_header data b1 = Construct.ok st) :
    new_from_header data b2 = Construct.ok { st with verify := b2 } := by
  unfold new_from_header at h ⊢
  by_cases hlen : data.length < 12
  · rw [if_pos hlen] at h
    simp at h
  · rw [if_neg hlen] at h ⊢
    cases hp : parse_header (data.take 12) with
    | error e =>
      rw [hp] at h
      simp at h
    | ok kn =>
      obtain ⟨kind, num⟩ := kn
      rw [hp] at h
      dsimp only at h ⊢
      by_cases hk : kind = Kind.V2
      · rw [if_pos hk] at h ⊢
        injection h with h
        subst h
        rfl
      · rw [if_neg hk] at h
        simp at h

/-- C8: two decoders constructed over the same bytes, one with verify true
and one with verify false, yield exactly the same sequence of pull results
for every number of pulls and every behaviour of the underlying stream:
the verify flag has no observable effect. -/
theorem C8_verify_unobservable (data : List Byte) (st1 st2 : IterState)
    (h1 : new_from_header data true = Construct.ok st1)
    (h2 : new_from_header data false = Construct.ok st2)
    (n : Nat) (steps : List StepResult) :
    (runPulls n ⟨st1, steps⟩).1 = (runPulls n ⟨st2, steps⟩).1 := by
  have h1f := construct_ok_verify data true false st1 h1
  have heq : { st1 with verify := false } = st2 := by
    have hcc := h1f.symm.trans h2
    injection hcc
  subst heq
  exact (runPulls_verify_irrel n st1 steps false).symm

/-- Witness for C8 over a preamble declaring three entries and a stream
whose first decode attempt fails, pulled twice. -/
theorem C8_verify_unobservable_witness :
    (runPulls 2 ⟨⟨none, 12, false, Kind.V2, 3, none, true⟩, [StepResult.errHeader]⟩).1 =
    (runPulls 2 ⟨⟨none, 12, false, Kind.V2, 3, none, false⟩, [StepResult.errHeader]⟩).1 :=
  C8_verify_unobservable [80, 65, 67, 75, 0, 0, 0, 2, 0, 0, 0, 3]
    ⟨none, 12, false, Kind.V2, 3, none, true⟩ ⟨none, 12, false, Kind.V2, 3, none, false⟩
    (by decide) (by decide) 2 [StepResult.errHeader]

end PackIter
